import Mathlib

/-
Verification of the agent-orchestration core of the AI-Asset-Manager
repository (backend pipelines, base-agent JSON recovery, and the chat
conversation engine).  Each Python routine under scrutiny is shallowly
embedded as an executable Lean definition; machine-level resource limits
(stack depth, IEEE-754 rounding of `float`) are idealized as usual: parsed
decimal numerals are represented exactly as rationals.
-/

namespace Shrestha

/-! ## JSON-like values

Python agent results are JSON trees (`dict` / `list` / `str` / numbers /
booleans / `None`).  Numeric leaves keep their source lexeme: no claim
below depends on numeric value equality of JSON leaves. -/

inductive Json where
  | null
  | bool (b : Bool)
  | num (lexeme : String)
  | str (s : String)
  | arr (elems : List Json)
  | obj (fields : List (String × Json))

/-- Lookup in an association list, first match: model of Python `dict[k]`
access on dicts built with unique keys. -/
def pyLookup (kvs : List (String × Json)) (k : String) : Option Json :=
  match kvs with
  | [] => none
  | (k0, v) :: rest => if k0 = k then some v else pyLookup rest k

/-- Model of Python `d[k] = v` on a dict represented as an association
list: an existing key keeps its position and gets the new value, a new key
is appended at the end (CPython insertion order). -/
def insertPair (kvs : List (String × Json)) (k : String) (v : Json) :
    List (String × Json) :=
  match kvs with
  | [] => [(k, v)]
  | (k0, v0) :: rest =>
      if k0 = k then (k0, v) :: rest else (k0, v0) :: insertPair rest k v

/-- Python truthiness of a JSON value (`if portfolio:` in chat.py). -/
def pyTruthy : Json → Bool
  | Json.null => false
  | Json.bool b => b
  | Json.num l => ¬ (l = "0" ∨ l = "0.0" ∨ l = "-0" ∨ l = "-0.0")
  | Json.str s => s ≠ ""
  | Json.arr xs => !xs.isEmpty
  | Json.obj kvs => !kvs.isEmpty

/-- Whether a JSON value is a key-value mapping (a Python `dict`). -/
def isObjMap : Json → Bool
  | Json.obj _ => true
  | _ => false

/-! ## Python `float()` (model)

`RiskPipeline._assess_overall_risk` calls `float(...)` on the stress-test
decline string after deleting every `%` and `-` character.  We model
`float()` over the grammar it accepts — optional sign, decimal digits with
optional fraction and exponent, and the case-insensitive literals
`inf`/`infinity`/`nan` — with the numeric value held exactly as a rational
(idealizing binary rounding).  Underscore digit separators are not
modelled. -/

inductive PyFloat where
  | fin (q : ℚ)
  | inf (neg : Bool)
  | nan
deriving DecidableEq

/-- Absolute value, Python `abs` on floats (`abs(nan)` is `nan`). -/
def pyAbs : PyFloat → PyFloat
  | PyFloat.fin q => PyFloat.fin |q|
  | PyFloat.inf _ => PyFloat.inf false
  | PyFloat.nan => PyFloat.nan

def isAsciiDigit (c : Char) : Bool := '0' ≤ c && c ≤ '9'

/-- Numeric value of a digit run (most significant first). -/
def digitsVal (ds : List Char) : ℕ :=
  ds.foldl (fun a c => 10 * a + (c.toNat - 48)) 0

/-- Whitespace stripped by Python `str.strip()` / accepted around
`float()` input (ASCII subset). -/
def isPySpace (c : Char) : Bool :=
  c = ' ' || c = '\t' || c = '\n' || c = '\r' || c = '\x0b' || c = '\x0c'

def stripChars (cs : List Char) : List Char :=
  ((cs.dropWhile isPySpace).reverse.dropWhile isPySpace).reverse

/-- Exponent suffix of a `float()` numeral: empty, or `e`/`E`, optional
sign, one or more digits.  Multiplies the mantissa by the power of ten. -/
def pyFloatExp (mant : ℚ) (cs : List Char) : Option ℚ :=
  match cs with
  | [] => some mant
  | e :: rest =>
      if e = 'e' ∨ e = 'E' then
        let (esign, rest2) :=
          match rest with
          | c :: rest2 => if c = '+' ∨ c = '-' then (c == '-', rest2) else (false, rest)
          | [] => (false, rest)
        let (eds, rest3) := rest2.span isAsciiDigit
        if eds = [] ∨ rest3 ≠ [] then none
        else
          let ex : ℤ := if esign then -(digitsVal eds : ℤ) else (digitsVal eds : ℤ)
          some (mant * (10 : ℚ) ^ ex)
      else none

/-- Digits (with optional fraction) of a `float()` numeral, then exponent. -/
def pyFloatNumber (cs : List Char) : Option ℚ :=
  let (ip, r1) := cs.span isAsciiDigit
  match r1 with
  | '.' :: r2 =>
      let (fp, r3) := r2.span isAsciiDigit
      if ip = [] ∧ fp = [] then none
      else
        pyFloatExp ((digitsVal ip : ℚ) + (digitsVal fp : ℚ) / (10 : ℚ) ^ fp.length) r3
  | _ => if ip = [] then none else pyFloatExp (digitsVal ip : ℚ) r1

/-- Model of Python `float(s)`: strip whitespace, optional sign, then a
decimal numeral or an `inf`/`infinity`/`nan` literal. -/
def pyFloatOfChars (cs0 : List Char) : Option PyFloat :=
  let cs := stripChars cs0
  let (neg, body) :=
    match cs with
    | c :: rest => if c = '+' ∨ c = '-' then (c == '-', rest) else (false, cs)
    | [] => (false, cs)
  let lower := body.map Char.toLower
  if lower = "inf".data ∨ lower = "infinity".data then some (PyFloat.inf neg)
  else if lower = "nan".data then some PyFloat.nan
  else
    (pyFloatNumber body).map (fun q => PyFloat.fin (if neg then -q else q))

def pyFloat (s : String) : Option PyFloat := pyFloatOfChars s.data

/-! ## RiskPipeline._assess_overall_risk -/

/-- Python comparison chain of `_assess_overall_risk` on the parsed
worst-case percentage (every comparison against `nan` is false, `+inf`
exceeds every threshold, `-inf` none). -/
def riskBucket : PyFloat → String
  | PyFloat.fin q =>
      if q > 50 then "HIGH"
      else if q > 35 then "MODERATE-HIGH"
      else if q > 25 then "MODERATE"
      else "LOW-MODERATE"
  | PyFloat.inf neg => if neg then "LOW-MODERATE" else "HIGH"
  | PyFloat.nan => "LOW-MODERATE"

/-- The decline string with every `%` and `-` removed
(`worst.replace("%", "").replace("-", "")`). -/
def strippedDecline (w : String) : List Char :=
  (w.data.filter (fun c => c ≠ '%')).filter (fun c => c ≠ '-')

/-- `abs(float(worst.replace("%", "").replace("-", "")))`; `none` is the
`ValueError` path (caught by the bare `except`). -/
def parseWorstDecline (w : String) : Option PyFloat :=
  (pyFloatOfChars (strippedDecline w)).map pyAbs

/-- `RiskPipeline._assess_overall_risk`.  The stress-test result is the
association list `stress`; `worst_case_scenario` defaults to `{}` and
`portfolio_decline` to `"-50%"`.  A non-string decline raises
`AttributeError` inside the `try`, so it also falls back to 50; a
non-mapping `worst_case_scenario` raises outside the `try` (`none`). -/
def assessOverallRisk (stress : List (String × Json)) : Option String :=
  match (pyLookup stress "worst_case_scenario").getD (Json.obj []) with
  | Json.obj wcs =>
      some (match (pyLookup wcs "portfolio_decline").getD (Json.str "-50%") with
        | Json.str w =>
            match parseWorstDecline w with
            | some v => riskBucket v
            | none => riskBucket (PyFloat.fin 50)
        | _ => riskBucket (PyFloat.fin 50))
  | _ => none

/-! ## `json.loads` (model)

A recursive-descent parser for the JSON grammar accepted by Python
`json.loads` in its default configuration: objects, arrays, strings with
escapes (control characters rejected), numbers per the JSON numeral
grammar (plus the non-standard `NaN` / `Infinity` / `-Infinity`
constants), `true` / `false` / `null`, with `' '`/`\t`/`\n`/`\r` as
inter-token whitespace and nothing but whitespace allowed after the
value.  Decode failure is `none` (a `JSONDecodeError`).  Recursion is
bounded by fuel, which `jsonLoadsChars` supplies amply. -/

def skipWs (cs : List Char) : List Char :=
  cs.dropWhile (fun c => c = ' ' || c = '\t' || c = '\n' || c = '\r')

def hexVal (c : Char) : Option ℕ :=
  if '0' ≤ c ∧ c ≤ '9' then some (c.toNat - 48)
  else if 'a' ≤ c ∧ c ≤ 'f' then some (c.toNat - 87)
  else if 'A' ≤ c ∧ c ≤ 'F' then some (c.toNat - 55)
  else none

/-- Single-character escapes inside a JSON string. -/
def escChar (c : Char) : Option Char :=
  if c = '"' then some '"'
  else if c = '\\' then some '\\'
  else if c = '/' then some '/'
  else if c = 'b' then some '\x08'
  else if c = 'f' then some '\x0c'
  else if c = 'n' then some '\n'
  else if c = 'r' then some '\r'
  else if c = 't' then some '\t'
  else none

/-- Body of a JSON string after the opening quote: content and remainder
after the closing quote.  Raw control characters (code point < 32) are
rejected (`strict=True`).  A `\uXXXX` escape maps to the corresponding
code point (surrogate pairing is not modelled; no claim depends on the
decoded character). -/
def parseStrBody : List Char → Option (List Char × List Char)
  | [] => none
  | '"' :: rest => some ([], rest)
  | '\\' :: rest =>
      match rest with
      | [] => none
      | e :: rest2 =>
          match escChar e with
          | some c => (parseStrBody rest2).map (fun pr => (c :: pr.1, pr.2))
          | none =>
              if e = 'u' then
                match rest2 with
                | h1 :: h2 :: h3 :: h4 :: rest3 =>
                    match hexVal h1, hexVal h2, hexVal h3, hexVal h4 with
                    | some a, some b, some c, some d =>
                        (parseStrBody rest3).map
                          (fun pr => (Char.ofNat (4096 * a + 256 * b + 16 * c + d) :: pr.1, pr.2))
                    | _, _, _, _ => none
                | _ => none
              else none
  | c :: rest =>
      if c.toNat < 32 then none
      else (parseStrBody rest).map (fun pr => (c :: pr.1, pr.2))

def startsWithL : List Char → List Char → Bool
  | [], _ => true
  | _ :: _, [] => false
  | p :: ps, c :: cs => p = c && startsWithL ps cs

/-- Maximal-munch match of the JSON `NUMBER_RE` regular expression
`-?(0|[1-9]\d*)(\.\d+)?([eE][-+]?\d+)?`, returning the lexeme and the
remainder (the surrounding scanner fails later if the remainder is
unexpected). -/
def parseNumLexeme (cs : List Char) : Option (List Char × List Char) :=
  let (sign, r0) :=
    match cs with
    | '-' :: rest => (['-'], rest)
    | _ => (([] : List Char), cs)
  match r0 with
  | [] => none
  | d :: rest =>
      if ¬ isAsciiDigit d then none
      else
        let (ip, r1) :=
          if d = '0' then ([d], rest)
          else
            let (more, r1) := rest.span isAsciiDigit
            (d :: more, r1)
        let (fp, r2) :=
          match r1 with
          | '.' :: r2 =>
              match r2.span isAsciiDigit with
              | ([], _) => (([] : List Char), r1)
              | (ds, r3) => ('.' :: ds, r3)
          | _ => (([] : List Char), r1)
        let (ep, r3) :=
          match r2 with
          | e :: r3 =>
              if e = 'e' ∨ e = 'E' then
                let (es, r4) :=
                  match r3 with
                  | s :: r4 => if s = '+' ∨ s = '-' then ([s], r4) else (([] : List Char), r3)
                  | [] => (([] : List Char), r3)
                match r4.span isAsciiDigit with
                | ([], _) => (([] : List Char), r2)
                | (ds, r5) => (e :: (es ++ ds), r5)
              else (([] : List Char), r2)
          | [] => (([] : List Char), r2)
        some (sign ++ ip ++ fp ++ ep, r3)

/-- CPython `dict(pairs)`: fold the parsed members left to right. -/
def pyDictOf (ms : List (String × Json)) : List (String × Json) :=
  ms.foldl (fun d kv => insertPair d kv.1 kv.2) []

mutual

/-- One JSON value starting at `cs` (no leading whitespace), with the
remainder of the input. -/
def parseVal : ℕ → List Char → Option (Json × List Char)
  | 0, _ => none
  | Nat.succ f, cs =>
      match cs with
      | '"' :: rest => (parseStrBody rest).map (fun pr => (Json.str (String.mk pr.1), pr.2))
      | '\x7b' :: rest =>
          let r := skipWs rest
          match r with
          | '\x7d' :: r2 => some (Json.obj [], r2)
          | _ => (parseMembers f r).map (fun pr => (Json.obj (pyDictOf pr.1), pr.2))
      | '[' :: rest =>
          let r := skipWs rest
          match r with
          | ']' :: r2 => some (Json.arr [], r2)
          | _ => (parseElems f r).map (fun pr => (Json.arr pr.1, pr.2))
      | _ =>
          if startsWithL "true".data cs then some (Json.bool true, cs.drop 4)
          else if startsWithL "false".data cs then some (Json.bool false, cs.drop 5)
          else if startsWithL "null".data cs then some (Json.null, cs.drop 4)
          else if startsWithL "NaN".data cs then some (Json.num "NaN", cs.drop 3)
          else if startsWithL "Infinity".data cs then some (Json.num "Infinity", cs.drop 8)
          else if startsWithL "-Infinity".data cs then some (Json.num "-Infinity", cs.drop 9)
          else (parseNumLexeme cs).map (fun pr => (Json.num (String.mk pr.1), pr.2))

/-- Object members, positioned at the opening quote of a key. -/
def parseMembers : ℕ → List Char → Option (List (String × Json) × List Char)
  | 0, _ => none
  | Nat.succ f, cs =>
      match cs with
      | '"' :: rest =>
          match parseStrBody rest with
          | none => none
          | some (key, r1) =>
              match skipWs r1 with
              | ':' :: r3 =>
                  match parseVal f (skipWs r3) with
                  | none => none
                  | some (v, r4) =>
                      match skipWs r4 with
                      | ',' :: r6 =>
                          (parseMembers f (skipWs r6)).map
                            (fun pr => ((String.mk key, v) :: pr.1, pr.2))
                      | '\x7d' :: r6 => some ([(String.mk key, v)], r6)
                      | _ => none
              | _ => none
      | _ => none

/-- Array elements, positioned at the first element. -/
def parseElems : ℕ → List Char → Option (List Json × List Char)
  | 0, _ => none
  | Nat.succ f, cs =>
      match parseVal f cs with
      | none => none
      | some (v, r1) =>
          match skipWs r1 with
          | ',' :: r2 => (parseElems f (skipWs r2)).map (fun pr => (v :: pr.1, pr.2))
          | ']' :: r2 => some ([v], r2)
          | _ => none

end

/-- `json.loads` on a character list: skip leading whitespace, parse one
value, require only whitespace after it. -/
def jsonLoadsChars (cs : List Char) : Option Json :=
  match parseVal (cs.length + 1) (skipWs cs) with
  | some (j, rest) => if skipWs rest = [] then some j else none
  | none => none

def jsonLoads (s : String) : Option Json := jsonLoadsChars s.data

/-! ## BaseAgent._parse_json -/

/-- Leftmost split of the input at the first occurrence of `pat`:
the part before it and the part after it. -/
def splitFirst (pat : List Char) : List Char → Option (List Char × List Char)
  | [] => if startsWithL pat [] then some ([], ([] : List Char).drop pat.length) else none
  | c :: rest =>
      if startsWithL pat (c :: rest) then some ([], (c :: rest).drop pat.length)
      else (splitFirst pat rest).map (fun pr => (c :: pr.1, pr.2))

def containsSub (pat s : List Char) : Bool := (splitFirst pat s).isSome

/-- Content of the first fenced block opened by `tag`: text between `tag`
and the next triple backtick after it.  `re.search` with the lazy pattern
additionally trims surrounding whitespace into the `\s*` anchors, but the
caller strips the result anyway, so the composition with `stripChars` is
exactly the Python behavior. -/
def extractFence (tag : List Char) (text : List Char) : Option (List Char) :=
  (splitFirst tag text).bind fun pr =>
    (splitFirst "```".data pr.2).map fun qr => qr.1

/-- The `clean` variable of `_parse_json` after the code-fence handling:
if  ```json  occurs, replace by that fenced content when the closing fence
exists; otherwise if  ```  occurs, replace by that fenced content when a
second fence exists; otherwise the whole text. -/
def cleanOf (text : List Char) : List Char :=
  if containsSub ("```json".data) text then (extractFence ("```json".data) text).getD text
  else if containsSub ("```".data) text then (extractFence ("```".data) text).getD text
  else text

/-- The greedy regex span `\x7b[\s\S]*\x7d` over the original text: from
the first opening brace to the last closing brace after it. -/
def braceSpan (text : List Char) : Option (List Char) :=
  (splitFirst ['\x7b'] text).bind fun pr =>
    (splitFirst ['\x7d'] pr.2.reverse).map fun qr =>
      '\x7b' :: qr.2.reverse ++ ['\x7d']

/-- The tagged degraded result `_parse_json` returns when every recovery
attempt fails. -/
def parseFailurePayload (text : String) : Json :=
  Json.obj [("_raw", Json.str text),
            ("_parse_error", Json.bool true),
            ("_error_message", Json.str "Failed to parse JSON from response")]

/-- `BaseAgent._parse_json`: extract a fenced block if present, decode the
stripped candidate; on failure decode the greedy brace span of the
original text; on failure return the tagged degraded result.  The
function is total — no input raises. -/
def parseJsonResponse (text : String) : Json :=
  match jsonLoadsChars (stripChars (cleanOf text.data)) with
  | some j => j
  | none =>
      match braceSpan text.data with
      | some span =>
          match jsonLoadsChars span with
          | some j => j
          | none => parseFailurePayload text
      | none => parseFailurePayload text

/-- `result["_sources"] = response["sources"]` in `BaseAgent.run`: assigns
on a mapping, raises `TypeError` (`none`) on any other value. -/
def attachSources (j : Json) (sources : List Json) : Option Json :=
  match j with
  | Json.obj kvs => some (Json.obj (insertPair kvs "_sources" (Json.arr sources)))
  | _ => none

/-- The search-backed path of `BaseAgent.run` after the LLM call: parse
the response text, then attach provenance.  `none` models the uncaught
`TypeError` when the parsed result is not a mapping. -/
def runSearchAgent (responseText : String) (sources : List Json) : Option Json :=
  attachSources (parseJsonResponse responseText) sources

/-! ## AnalysisPipeline.analyze

The four research branches run under `asyncio.gather(...,
return_exceptions=True)`; each branch outcome is either a result mapping
or a captured exception, modelled as `Except String Json` (the `String`
is `str(exception)`).  The thesis-writer call is an external LLM agent,
modelled as an oracle function of the task ticker and the context. -/

/-- `x if not isinstance(x, Exception) else \x7b\x7d` — the value put in
the synthesis context. -/
def orEmptyDict : Except String Json → Json
  | Except.ok j => j
  | Except.error _ => Json.obj []

/-- `x if not isinstance(x, Exception) else \x7b"_error": str(x)\x7d` —
the value put in the returned `research` slot. -/
def orErrorDict : Except String Json → Json
  | Except.ok j => j
  | Except.error e => Json.obj [("_error", Json.str e)]

/-- The `context` mapping handed to the thesis writer. -/
structure SynthesisContext where
  ticker : String
  fundamentals : Json
  moat : Json
  sentiment : Json
  valuation : Json

def synthesisContext (ticker : String) (f m s v : Except String Json) :
    SynthesisContext :=
  { ticker := ticker
    fundamentals := orEmptyDict f
    moat := orEmptyDict m
    sentiment := orEmptyDict s
    valuation := orEmptyDict v }

/-- `AnalysisPipeline._collect_sources`: gather `_sources` lists from the
branch outcomes that are mappings carrying one. -/
def collectSources (rs : List (Except String Json)) : List Json :=
  rs.foldl
    (fun acc r =>
      match r with
      | Except.ok (Json.obj kvs) =>
          match pyLookup kvs "_sources" with
          | some (Json.arr xs) => acc ++ xs
          | _ => acc
      | _ => acc)
    []

structure AnalysisOutcome where
  ticker : String
  thesis : Json
  research : List (String × Json)
  sources : List Json

/-- `AnalysisPipeline.analyze`: build the synthesis context (failed
branches become `\x7b\x7d`), invoke the thesis writer, and assemble the
result (failed branches annotated `\x7b"_error": msg\x7d` in `research`). -/
def analysisPipeline (ticker : String) (f m s v : Except String Json)
    (thesisWriter : String → SynthesisContext → Json) : AnalysisOutcome :=
  let ctx := synthesisContext ticker f m s v
  let thesis := thesisWriter ticker ctx
  { ticker := ticker
    thesis := thesis
    research := [("fundamentals", orErrorDict f), ("moat", orErrorDict m),
                 ("sentiment", orErrorDict s), ("valuation", orErrorDict v)]
    sources := collectSources [f, m, s, v] }

/-! ## RiskPipeline.analyze -/

/-- The task list dispatched to `asyncio.gather`: all four risk agents
when `run_full`, otherwise only stress test and VaR. -/
def riskTasks (runFull : Bool) (stress varR mc corr : Except String Json) :
    List (String × Except String Json) :=
  if runFull then
    [("Stress Test", stress), ("VaR", varR), ("Monte Carlo", mc), ("Correlation", corr)]
  else
    [("Stress Test", stress), ("VaR", varR)]

structure RiskReport where
  positionsCount : ℕ
  stressTests : Json
  varResult : Json
  monteCarlo : Option Json
  correlations : Option Json
  overallRiskLevel : Option String

/-- `RiskPipeline.analyze` (the report slots the claims are about;
`summary` is represented by its orchestrator-computed
`overall_risk_level`, `none` modelling the raise on a non-mapping
stress-test result).  `monte_carlo`/`correlations` start as `\x7b\x7d`,
are filled from result slots 2 and 3 only when `run_full` produced them,
and are `None` in the report when not `run_full`. -/
def riskAnalyze (positions : List Json) (runFull : Bool)
    (stress varR mc corr : Except String Json) : RiskReport :=
  let stressJ := orErrorDict stress
  let varJ := orErrorDict varR
  let mcJ := if runFull then orErrorDict mc else Json.obj []
  let corrJ := if runFull then orErrorDict corr else Json.obj []
  { positionsCount := positions.length
    stressTests := stressJ
    varResult := varJ
    monteCarlo := if runFull then some mcJ else none
    correlations := if runFull then some corrJ else none
    overallRiskLevel :=
      match stressJ with
      | Json.obj kvs => assessOverallRisk kvs
      | _ => none }

/-! ## ScoutPipeline.discover — aggregation and deduplication

A scout-returned stock is a mapping; the deduplication logic reads only
its `ticker` field (`stock.get("ticker", "")`, so a missing field is the
empty string) and writes the `_source` and `_multi_scout` annotations
(`_multi_scout` absent means `false`).  The remaining fields are carried
opaquely in `payload`. -/

structure Stock where
  ticker : String
  source : String
  multi : Bool
  payload : ℕ
deriving DecidableEq

def tickersOf (l : List Stock) : List String := l.map Stock.ticker

/-- The signal-boost loop: set `_multi_scout` on the first entry of
`unique` whose ticker matches, leave the rest unchanged. -/
def setMulti (t : String) : List Stock → List Stock
  | [] => []
  | s :: rest =>
      if s.ticker = t then { s with multi := true } :: rest
      else s :: setMulti t rest

/-- The dedup-by-ticker loop of `ScoutPipeline.discover` (step 4): a
nonempty unseen ticker is recorded and its stock appended; a seen ticker
boosts the retained entry; an empty ticker is skipped entirely. -/
def dedupGo (seen : List String) (unique : List Stock) :
    List Stock → List Stock
  | [] => unique
  | s :: rest =>
      if s.ticker ≠ "" ∧ s.ticker ∉ seen then
        dedupGo (s.ticker :: seen) (unique ++ [s]) rest
      else if s.ticker ∈ seen then
        dedupGo seen (setMulti s.ticker unique) rest
      else
        dedupGo seen unique rest

def dedupStocks (all : List Stock) : List Stock := dedupGo [] [] all

/-- Step 3 of `discover`: each successful scout result contributes its
stocks annotated with `_source` = scout name, concatenated in task
order. -/
def aggregateScouts (scouts : List (String × List Stock)) : List Stock :=
  (scouts.map (fun p => p.2.map (fun s => { s with source := p.1 }))).flatten

/-- The per-scout outcomes of `asyncio.gather(..., return_exceptions=True)`;
failed scouts are skipped by the aggregation loop. -/
def successfulScouts (outcomes : List (String × Except String (List Stock))) :
    List (String × List Stock) :=
  outcomes.filterMap
    (fun p => match p.2 with
      | Except.ok l => some (p.1, l)
      | Except.error _ => none)

structure DiscoverStats where
  scoutsRun : ℕ
  totalDiscovered : ℕ
  uniqueStocks : ℕ

/-- The `stats` block of the `discover` result. -/
def discoverStats (outcomes : List (String × Except String (List Stock))) :
    DiscoverStats :=
  let all := aggregateScouts (successfulScouts outcomes)
  { scoutsRun := outcomes.length
    totalDiscovered := all.length
    uniqueStocks := (dedupStocks all).length }

/-! ## Chat create_fund: fund name and slug -/

/-- Python `str.title()` on ASCII text: an alphabetic character is
uppercased when the previous character was not alphabetic, lowercased
otherwise; other characters pass through. -/
def pytitleGo (prevCased : Bool) : List Char → List Char
  | [] => []
  | c :: rest =>
      if c.isAlpha then
        (if prevCased then c.toLower else c.toUpper) :: pytitleGo true rest
      else c :: pytitleGo false rest

def pytitle (s : String) : String := String.mk (pytitleGo false s.data)

/-- Fund-name derivation in the `create_fund` branch of `chat`:
`fund_params.get("name", ...)` with the default built from the first two
themes, or `"New Growth Fund"` when `themes` is empty. -/
def deriveFundName (explicitName : Option String) (themes : List String) :
    String :=
  match explicitName with
  | some n => n
  | none =>
      if themes.isEmpty then "New Growth Fund"
      else String.join ((themes.take 2).map pytitle) ++ " Fund"

/-- Membership in the regex class `[a-z0-9]`. -/
def isSlugChar (c : Char) : Bool := ('a' ≤ c && c ≤ 'z') || ('0' ≤ c && c ≤ '9')

/-- `re.sub(r'[^a-z0-9]+', '-', ·)`: each maximal run of characters
outside `[a-z0-9]` becomes a single hyphen.  `inRun` records whether the
previous character belonged to such a run. -/
def collapseRuns (inRun : Bool) : List Char → List Char
  | [] => []
  | c :: rest =>
      if isSlugChar c then c :: collapseRuns false rest
      else if inRun then collapseRuns inRun rest
      else '-' :: collapseRuns true rest

/-- Python `.strip('-')`, trailing side. -/
def stripTrailingHyphens : List Char → List Char
  | [] => []
  | c :: rest =>
      match stripTrailingHyphens rest with
      | [] => if c = '-' then [] else [c]
      | r => c :: r

def stripEdgeHyphens (l : List Char) : List Char :=
  stripTrailingHyphens (l.dropWhile (fun c => c = '-'))

/-- `re.sub(r'[^a-z0-9]+', '-', fund_name.lower()).strip('-')`.  (A
non-ASCII character survives Lean's ASCII `toLower` but is outside
`[a-z0-9]` either way, so the composition agrees with Python's Unicode
lowercasing.) -/
def slugify (name : String) : String :=
  String.mk (stripEdgeHyphens (collapseRuns false (name.data.map Char.toLower)))

/-- No two adjacent hyphens (the collapsed-runs shape of a slug). -/
def noAdjacentHyphens : List Char → Bool
  | [] => true
  | [_] => true
  | a :: b :: rest => !(a = '-' && b = '-') && noAdjacentHyphens (b :: rest)

/-- Last element of a character list. -/
def lastChar : List Char → Option Char
  | [] => none
  | [c] => some c
  | _ :: c :: rest => lastChar (c :: rest)

/-! ## Chat execute_action -/

/-- The conversation-side state read and written by `execute_action`: the
stage payload (`conversation.state`), the message history, and the fund
status touched by the `building_portfolio` branch. -/
structure ConvState where
  phase : Option String
  fundParams : List (String × Json)
  fundId : Option ℕ
  discoveredStocks : List String
  theses : List Json
  proposedPortfolio : Option Json
  messages : List (String × String)
  fundStatus : Option String

/-- External collaborators of `execute_action`: the discovery pipeline's
hot list, the per-ticker analysis pipeline, and the PM agent's
portfolio. -/
structure ActionEnv where
  hotStocks : List Stock
  analyzeResult : String → Except String Json
  pmPortfolio : Json

inductive ExecResult where
  | scouted (message : String) (stocks : List String)
  | analyzed (message : String) (theses : List Json)
  | portfolioBuilt (message : String) (portfolio : Json) (fundId : Option ℕ)
      (positions : List String)
  | unknownAction (action : String)

/-- The per-ticker summary mapping appended in the `analyzing` branch. -/
def thesisSummaryOf (ticker : String) (result : Json) : Json :=
  let thesis :=
    match result with
    | Json.obj kvs => (pyLookup kvs "thesis").getD (Json.obj [])
    | _ => Json.obj []
  let gf := fun (k : String) =>
    match thesis with
    | Json.obj kvs => (pyLookup kvs k).getD Json.null
    | _ => Json.null
  Json.obj [("ticker", Json.str ticker), ("recommendation", gf "recommendation"),
            ("conviction", gf "conviction"), ("thesis_summary", gf "thesis_summary")]

/-- Allocation list read in the `building_portfolio` branch:
`portfolio.get("positions", portfolio.get("allocations", []))`. -/
def pmAllocations (portfolio : Json) : List Json :=
  match portfolio with
  | Json.obj kvs =>
      match pyLookup kvs "positions" with
      | some (Json.arr xs) => xs
      | some _ => []
      | none =>
          match pyLookup kvs "allocations" with
          | some (Json.arr xs) => xs
          | _ => []
  | _ => []

/-- Ticker of one allocation mapping, when present and truthy. -/
def allocTicker (alloc : Json) : Option String :=
  match alloc with
  | Json.obj kvs =>
      match pyLookup kvs "ticker" with
      | some (Json.str t) => if t = "" then none else some t
      | _ => none
  | _ => none

/-- `execute_action` in `chat.py`: branch on the action name; the three
recognized actions run their pipeline stage and advance the stage
payload, anything else returns the explicit unknown-action result and
leaves the conversation untouched. -/
def executeAction (env : ActionEnv) (st : ConvState) (action : String) :
    ExecResult × ConvState :=
  if action = "scouting" then
    let hotTickers := (env.hotStocks.take 10).map Stock.ticker
    (ExecResult.scouted "scouting complete" hotTickers,
     { st with discoveredStocks := hotTickers, phase := some "discovered" })
  else if action = "analyzing" then
    let tickers := st.discoveredStocks.take 5
    let theses := tickers.foldl
      (fun acc t =>
        match env.analyzeResult t with
        | Except.ok r => acc ++ [thesisSummaryOf t r]
        | Except.error _ => acc)
      []
    (ExecResult.analyzed "analyzing complete" theses,
     { st with theses := theses, phase := some "analyzed" })
  else if action = "building_portfolio" then
    let portfolio := env.pmPortfolio
    let created :=
      if st.fundId.isSome ∧ pyTruthy portfolio then
        (pmAllocations portfolio).filterMap allocTicker
      else []
    (ExecResult.portfolioBuilt "portfolio built" portfolio st.fundId created,
     { st with proposedPortfolio := some portfolio, phase := some "complete"
               fundStatus :=
                 if st.fundId.isSome ∧ pyTruthy portfolio then some "active"
                 else st.fundStatus })
  else
    (ExecResult.unknownAction action, st)

/-! ## Claim theorems: JSON recovery (C2, C9) -/

/-- Claim C2: for every input string the JSON-recovery procedure
`BaseAgent._parse_json` never raises (it is embedded as the total
function `parseJsonResponse`); and whenever the decode of the cleaned
candidate (fenced ```json block, any fenced block, or the whole trimmed
text when no fence applies) fails and the decode of the regex-extracted
brace span fails, it returns the degraded result carrying the original
text, the parse-error flag set to true, and the error message
"Failed to parse JSON from response" (the code spells the keys `_raw`,
`_parse_error`, `_error_message`). -/
theorem claim_C2 (text : String)
    (h1 : jsonLoadsChars (stripChars (cleanOf text.data)) = none)
    (h2 : ∀ span, braceSpan text.data = some span → jsonLoadsChars span = none) :
    parseJsonResponse text =
      Json.obj [("_raw", Json.str text),
                ("_parse_error", Json.bool true),
                ("_error_message", Json.str "Failed to parse JSON from response")] := by
  unfold parseJsonResponse
  rw [h1]
  cases hb : braceSpan text.data with
  | none => rfl
  | some span => simp [h2 span hb, parseFailurePayload]

/-- Witness for C2 at a concrete non-JSON input with no fence and no
brace span. -/
theorem claim_C2_witness :
    parseJsonResponse "no structured data here" =
      Json.obj [("_raw", Json.str "no structured data here"),
                ("_parse_error", Json.bool true),
                ("_error_message", Json.str "Failed to parse JSON from response")] := by
  apply claim_C2
  · rfl
  · intro span h
    rw [show braceSpan ("no structured data here".data) = none from rfl] at h
    exact Option.noConfusion h

/-- Claim C9: there are input strings (a bare JSON array, or the scalar
"null") for which `_parse_json` returns a value that is neither a
key-value mapping nor the tagged parse-error marker, and for a
search-backed agent `BaseAgent.run` then fails (`none`, the uncaught
`TypeError`) when attaching the `_sources` provenance field. -/
theorem claim_C9 :
    parseJsonResponse "null" = Json.null ∧
    isObjMap (parseJsonResponse "null") = false ∧
    parseJsonResponse "[1, 2]" = Json.arr [Json.num "1", Json.num "2"] ∧
    isObjMap (parseJsonResponse "[1, 2]") = false ∧
    runSearchAgent "null" [] = none ∧
    runSearchAgent "[1, 2]" [] = none :=
  ⟨rfl, rfl, rfl, rfl, rfl, rfl⟩

/-! ## Claim theorems: AnalysisPipeline (C3) -/

/-- Counterexample to C3 as stated: in the scenario where the
fundamentals and moat branches raise and the others succeed, the
synthesis call is invoked with the plain empty mapping for each failed
branch, not with the `_error`-annotated mapping. -/
theorem claim_C3_counterexample :
    (synthesisContext "XYZ" (Except.error "fundamentals boom")
        (Except.error "moat boom")
        (Except.ok (Json.obj [("sentiment_score", Json.num "8")]))
        (Except.ok (Json.obj [("valuation_score", Json.num "6")]))).fundamentals
      = Json.obj [] ∧
    (synthesisContext "XYZ" (Except.error "fundamentals boom")
        (Except.error "moat boom")
        (Except.ok (Json.obj [("sentiment_score", Json.num "8")]))
        (Except.ok (Json.obj [("valuation_score", Json.num "6")]))).fundamentals
      ≠ Json.obj [("_error", Json.str "fundamentals boom")] := by
  constructor
  · rfl
  · intro h
    rw [show (synthesisContext "XYZ" (Except.error "fundamentals boom")
        (Except.error "moat boom")
        (Except.ok (Json.obj [("sentiment_score", Json.num "8")]))
        (Except.ok (Json.obj [("valuation_score", Json.num "6")]))).fundamentals
      = Json.obj [] from rfl] at h
    simp at h

/-- Claim C3 (amended): each failed research branch is caught; it is
replaced with the empty mapping in the synthesis context and with the
mapping annotated `\x7b_error: msg\x7d` in the returned `research` slot;
successful branches pass through to both; the synthesis call is always
invoked on that context and its output is returned as the thesis (in
particular a mapping whenever the writer yields a mapping) — for any
number of failed branches. -/
theorem claim_C3 (ticker : String) (f m s v : Except String Json)
    (thesisWriter : String → SynthesisContext → Json) :
    (analysisPipeline ticker f m s v thesisWriter).thesis
        = thesisWriter ticker (synthesisContext ticker f m s v) ∧
    (∀ e, f = Except.error e →
      (synthesisContext ticker f m s v).fundamentals = Json.obj [] ∧
      pyLookup (analysisPipeline ticker f m s v thesisWriter).research "fundamentals"
        = some (Json.obj [("_error", Json.str e)])) ∧
    (∀ j, f = Except.ok j →
      (synthesisContext ticker f m s v).fundamentals = j ∧
      pyLookup (analysisPipeline ticker f m s v thesisWriter).research "fundamentals"
        = some j) ∧
    (∀ e, m = Except.error e →
      (synthesisContext ticker f m s v).moat = Json.obj [] ∧
      pyLookup (analysisPipeline ticker f m s v thesisWriter).research "moat"
        = some (Json.obj [("_error", Json.str e)])) ∧
    (∀ j, m = Except.ok j →
      (synthesisContext ticker f m s v).moat = j ∧
      pyLookup (analysisPipeline ticker f m s v thesisWriter).research "moat"
        = some j) ∧
    (∀ e, s = Except.error e →
      (synthesisContext ticker f m s v).sentiment = Json.obj [] ∧
      pyLookup (analysisPipeline ticker f m s v thesisWriter).research "sentiment"
        = some (Json.obj [("_error", Json.str e)])) ∧
    (∀ j, s = Except.ok j →
      (synthesisContext ticker f m s v).sentiment = j ∧
      pyLookup (analysisPipeline ticker f m s v thesisWriter).research "sentiment"
        = some j) ∧
    (∀ e, v = Except.error e →
      (synthesisContext ticker f m s v).valuation = Json.obj [] ∧
      pyLookup (analysisPipeline ticker f m s v thesisWriter).research "valuation"
        = some (Json.obj [("_error", Json.str e)])) ∧
    (∀ j, v = Except.ok j →
      (synthesisContext ticker f m s v).valuation = j ∧
      pyLookup (analysisPipeline ticker f m s v thesisWriter).research "valuation"
        = some j) ∧
    (isObjMap (thesisWriter ticker (synthesisContext ticker f m s v)) = true →
      isObjMap (analysisPipeline ticker f m s v thesisWriter).thesis = true) := by
  refine ⟨rfl, ?_, ?_, ?_, ?_, ?_, ?_, ?_, ?_, ?_⟩
  · intro e he; subst he; exact ⟨rfl, rfl⟩
  · intro j hj; subst hj; exact ⟨rfl, rfl⟩
  · intro e he; subst he; exact ⟨rfl, rfl⟩
  · intro j hj; subst hj; exact ⟨rfl, rfl⟩
  · intro e he; subst he; exact ⟨rfl, rfl⟩
  · intro j hj; subst hj; exact ⟨rfl, rfl⟩
  · intro e he; subst he; exact ⟨rfl, rfl⟩
  · intro j hj; subst hj; exact ⟨rfl, rfl⟩
  · intro h; exact h

/-- Witness for C3 at the scenario with two failed branches: the context
carries empty mappings, the research slots carry the annotations, the
thesis is the writer's output. -/
theorem claim_C3_witness :
    (synthesisContext "XYZ" (Except.error "fb") (Except.error "mb")
        (Except.ok (Json.obj [("sentiment_score", Json.num "8")]))
        (Except.ok (Json.obj [("valuation_score", Json.num "6")]))).fundamentals
      = Json.obj [] ∧
    pyLookup (analysisPipeline "XYZ" (Except.error "fb") (Except.error "mb")
        (Except.ok (Json.obj [("sentiment_score", Json.num "8")]))
        (Except.ok (Json.obj [("valuation_score", Json.num "6")]))
        (fun _ _ => Json.obj [("recommendation", Json.str "buy")])).research "moat"
      = some (Json.obj [("_error", Json.str "mb")]) ∧
    pyLookup (analysisPipeline "XYZ" (Except.error "fb") (Except.error "mb")
        (Except.ok (Json.obj [("sentiment_score", Json.num "8")]))
        (Except.ok (Json.obj [("valuation_score", Json.num "6")]))
        (fun _ _ => Json.obj [("recommendation", Json.str "buy")])).research "sentiment"
      = some (Json.obj [("sentiment_score", Json.num "8")]) ∧
    (analysisPipeline "XYZ" (Except.error "fb") (Except.error "mb")
        (Except.ok (Json.obj [("sentiment_score", Json.num "8")]))
        (Except.ok (Json.obj [("valuation_score", Json.num "6")]))
        (fun _ _ => Json.obj [("recommendation", Json.str "buy")])).thesis
      = Json.obj [("recommendation", Json.str "buy")] := by
  have h := claim_C3 "XYZ" (Except.error "fb") (Except.error "mb")
    (Except.ok (Json.obj [("sentiment_score", Json.num "8")]))
    (Except.ok (Json.obj [("valuation_score", Json.num "6")]))
    (fun _ _ => Json.obj [("recommendation", Json.str "buy")])
  exact ⟨(h.2.1 "fb" rfl).1, (h.2.2.2.1 "mb" rfl).2,
    (h.2.2.2.2.2.2.1 (Json.obj [("sentiment_score", Json.num "8")]) rfl).2, h.1⟩

/-! ## Claim theorems: RiskPipeline (C4, C5, C6) -/

/-- Counterexample to C4 as stated: the unparsable decline string "N/A"
defaults the decline to 50, and 50 is not greater than 50, so the level
is "MODERATE-HIGH", not "HIGH". -/
theorem claim_C4_counterexample :
    parseWorstDecline "N/A" = none ∧
    assessOverallRisk
        [("worst_case_scenario", Json.obj [("portfolio_decline", Json.str "N/A")])]
      = some "MODERATE-HIGH" ∧
    assessOverallRisk
        [("worst_case_scenario", Json.obj [("portfolio_decline", Json.str "N/A")])]
      ≠ some "HIGH" := by
  refine ⟨by decide, by decide, by decide⟩

/-- Claim C4 (amended): for every risk run in which the stress-test
worst-case decline string cannot be parsed as a number after stripping
`%` and `-`, the decline defaults to 50 and `overall_risk_level` is
"MODERATE-HIGH". -/
theorem claim_C4 (stress wcs : List (String × Json)) (w : String)
    (hwcs : pyLookup stress "worst_case_scenario" = some (Json.obj wcs))
    (hw : pyLookup wcs "portfolio_decline" = some (Json.str w))
    (hp : parseWorstDecline w = none) :
    assessOverallRisk stress = some "MODERATE-HIGH" := by
  simp only [assessOverallRisk, hwcs, Option.getD_some, hw, hp]
  norm_num [riskBucket]

/-- Witness for C4 at the "N/A" decline string. -/
theorem claim_C4_witness :
    assessOverallRisk
        [("worst_case_scenario", Json.obj [("portfolio_decline", Json.str "N/A")])]
      = some "MODERATE-HIGH" :=
  claim_C4 [("worst_case_scenario", Json.obj [("portfolio_decline", Json.str "N/A")])]
    [("portfolio_decline", Json.str "N/A")] "N/A" rfl rfl (by decide)

/-- Claim C5: when the worst-case decline string parses (absolute value
after removing `%` and `-`) to a finite number p, the overall risk level
is "HIGH" for p > 50, "MODERATE-HIGH" for 35 < p ≤ 50, "MODERATE" for
25 < p ≤ 35, and "LOW-MODERATE" otherwise. -/
theorem claim_C5 (stress wcs : List (String × Json)) (w : String) (p : ℚ)
    (hwcs : pyLookup stress "worst_case_scenario" = some (Json.obj wcs))
    (hw : pyLookup wcs "portfolio_decline" = some (Json.str w))
    (hp : parseWorstDecline w = some (PyFloat.fin p)) :
    assessOverallRisk stress =
      some (if 50 < p then "HIGH"
            else if 35 < p ∧ p ≤ 50 then "MODERATE-HIGH"
            else if 25 < p ∧ p ≤ 35 then "MODERATE"
            else "LOW-MODERATE") := by
  simp only [assessOverallRisk, hwcs, Option.getD_some, hw, hp]
  by_cases h1 : 50 < p
  · simp [riskBucket, h1]
  · by_cases h2 : 35 < p
    · simp [riskBucket, h1, h2, le_of_not_lt h1]
    · by_cases h3 : 25 < p
      · simp [riskBucket, h1, h2, h3, le_of_not_lt h2]
      · simp [riskBucket, h1, h2, h3]

/-- Witness for C5 at the decline string "-42%". -/
theorem claim_C5_witness :
    assessOverallRisk
        [("worst_case_scenario", Json.obj [("portfolio_decline", Json.str "-42%")])]
      = some "MODERATE-HIGH" := by
  have h := claim_C5
    [("worst_case_scenario", Json.obj [("portfolio_decline", Json.str "-42%")])]
    [("portfolio_decline", Json.str "-42%")] "-42%" 42 rfl rfl (by decide)
  rw [h]
  norm_num

/-- Claim C6: with `run_full = false` exactly two branches are
dispatched — stress test and VaR — and the report's Monte Carlo and
correlation slots are `None`, not populated with agent results. -/
theorem claim_C6 (positions : List Json) (stress varR mc corr : Except String Json) :
    (riskTasks false stress varR mc corr).length = 2 ∧
    (riskTasks false stress varR mc corr).map Prod.fst = ["Stress Test", "VaR"] ∧
    (riskAnalyze positions false stress varR mc corr).monteCarlo = none ∧
    (riskAnalyze positions false stress varR mc corr).correlations = none :=
  ⟨rfl, rfl, rfl, rfl⟩

/-! ## Claim theorems: execute_action (C8) -/

/-- Claim C8: an execute-action call whose action is none of scouting /
analyzing / building_portfolio returns the explicit unknown-action result
and leaves the conversation state (phase, stage payload, history, fund)
completely unchanged. -/
theorem claim_C8 (env : ActionEnv) (st : ConvState) (action : String)
    (h1 : action ≠ "scouting") (h2 : action ≠ "analyzing")
    (h3 : action ≠ "building_portfolio") :
    executeAction env st action = (ExecResult.unknownAction action, st) := by
  simp [executeAction, h1, h2, h3]

/-- Witness for C8 at the documented-but-unhandled action
"confirm_trade". -/
theorem claim_C8_witness :
    executeAction
        ⟨[], fun _ => Except.error "unused", Json.obj []⟩
        ⟨some "analyzed", [("mandate", Json.str "growth")], some 1, ["NVDA"],
         [], none, [("user", "build it")], some "building"⟩
        "confirm_trade"
      = (ExecResult.unknownAction "confirm_trade",
         ⟨some "analyzed", [("mandate", Json.str "growth")], some 1, ["NVDA"],
          [], none, [("user", "build it")], some "building"⟩) :=
  claim_C8 _ _ _ (by decide) (by decide) (by decide)

/-! ## Dedup-by-ticker: characterization lemmas -/

theorem tickersOf_nil : tickersOf [] = [] := rfl

theorem tickersOf_cons (s : Stock) (l : List Stock) :
    tickersOf (s :: l) = s.ticker :: tickersOf l := rfl

theorem tickersOf_append (l₁ l₂ : List Stock) :
    tickersOf (l₁ ++ l₂) = tickersOf l₁ ++ tickersOf l₂ := by
  simp [tickersOf]

theorem tickersOf_setMulti (t : String) (l : List Stock) :
    tickersOf (setMulti t l) = tickersOf l := by
  induction l with
  | nil => rfl
  | cons s rest ih =>
      by_cases h : s.ticker = t
      · simp [setMulti, h, tickersOf_cons]
      · simp [setMulti, h, tickersOf_cons, ih]

theorem find?_setMulti_self (t : String) (l : List Stock) :
    (setMulti t l).find? (fun s => s.ticker == t) =
      (l.find? (fun s => s.ticker == t)).map (fun s => { s with multi := true }) := by
  induction l with
  | nil => rfl
  | cons s rest ih =>
      by_cases h : s.ticker = t
      · rw [setMulti, if_pos h]
        rw [List.find?_cons_of_pos _ (by simp [h]),
          List.find?_cons_of_pos _ (by simp [h])]
        rfl
      · rw [setMulti, if_neg h]
        rw [List.find?_cons_of_neg _ (by simp [h]),
          List.find?_cons_of_neg _ (by simp [h]), ih]

theorem find?_setMulti_ne (u t : String) (h : u ≠ t) (l : List Stock) :
    (setMulti u l).find? (fun s => s.ticker == t) =
      l.find? (fun s => s.ticker == t) := by
  induction l with
  | nil => rfl
  | cons s rest ih =>
      by_cases hs : s.ticker = u
      · rw [setMulti, if_pos hs]
        rw [List.find?_cons_of_neg _ (by simp [hs, h]),
          List.find?_cons_of_neg _ (by simp [hs, h])]
      · rw [setMulti, if_neg hs]
        by_cases hst : s.ticker = t
        · rw [List.find?_cons_of_pos _ (by simp [hst]),
            List.find?_cons_of_pos _ (by simp [hst])]
        · rw [List.find?_cons_of_neg _ (by simp [hst]),
            List.find?_cons_of_neg _ (by simp [hst]), ih]

theorem find?_ticker_eq_none (t : String) (l : List Stock)
    (h : t ∉ tickersOf l) : l.find? (fun s => s.ticker == t) = none := by
  apply List.find?_eq_none.mpr
  intro x hx
  simp only [beq_iff_eq]
  intro hxt
  exact h (by simp [tickersOf]; exact ⟨x, hx, hxt⟩)

/-- Full characterization of the dedup loop: for a nonempty ticker `t`,
the entry found in the final unique list is the entry already retained
(when `t` was seen), respectively the first occurrence among the
remaining stocks, with the `_multi_scout` flag forced to true exactly
when a further occurrence arrives. -/
theorem dedupGo_find (t : String) (ht : t ≠ "") (rest : List Stock) :
    ∀ (seen : List String) (unique : List Stock),
      (∀ u : String, u ∈ seen ↔ u ∈ tickersOf unique) → ("" ∉ seen) →
      (dedupGo seen unique rest).find? (fun s => s.ticker == t) =
        (if t ∈ seen then
          (unique.find? (fun s => s.ticker == t)).map
            (fun s => { s with multi := s.multi || decide (t ∈ tickersOf rest) })
        else
          (rest.find? (fun s => s.ticker == t)).map
            (fun s => { s with multi := s.multi || decide (2 ≤ (tickersOf rest).count t) })) := by
  induction rest with
  | nil =>
      intro seen unique hinv hemp
      by_cases h2 : t ∈ seen
      · rw [dedupGo, if_pos h2]
        have hfun : (fun (x : Stock) =>
            { x with multi := x.multi || decide (t ∈ tickersOf []) }) = fun x => x := by
          funext x
          simp [tickersOf_nil]
        rw [hfun, Option.map_id']
      · rw [dedupGo, if_neg h2]
        rw [find?_ticker_eq_none t unique (fun hm => h2 ((hinv t).mpr hm))]
        rfl
  | cons s rest ih =>
      intro seen unique hinv hemp
      by_cases hA : s.ticker ≠ "" ∧ s.ticker ∉ seen
      · rw [dedupGo, if_pos hA]
        rw [ih (s.ticker :: seen) (unique ++ [s])
          (by
            intro u
            simp only [List.mem_cons, tickersOf_append, List.mem_append, hinv u,
              tickersOf_cons, tickersOf_nil, List.mem_singleton]
            tauto)
          (by
            simp only [List.mem_cons, not_or]
            exact ⟨fun h => hA.1 h.symm, hemp⟩)]
        by_cases h2 : t ∈ seen
        · have hts : t ≠ s.ticker := fun h => hA.2 (h ▸ h2)
          rw [if_pos (List.mem_cons_of_mem _ h2), if_pos h2]
          obtain ⟨x, hx⟩ := Option.isSome_iff_exists.mp
            (List.find?_isSome.mpr (by
              have hmm : t ∈ List.map Stock.ticker unique := (hinv t).mp h2
              obtain ⟨y, hy, hyt⟩ := List.mem_map.mp hmm
              exact ⟨y, hy, beq_iff_eq.mpr hyt⟩))
          rw [List.find?_append, hx]
          have hdec : decide (t ∈ tickersOf (s :: rest)) = decide (t ∈ tickersOf rest) :=
            decide_eq_decide.mpr (by simp [tickersOf_cons, hts])
          rw [hdec]
          rfl
        · by_cases h3 : t = s.ticker
          · have hmem : t ∈ s.ticker :: seen := by
              rw [h3]
              exact List.mem_cons_self _ _
            rw [if_pos hmem, if_neg h2]
            rw [List.find?_append,
              find?_ticker_eq_none t unique (fun hm => h2 ((hinv t).mpr hm))]
            rw [List.find?_cons_of_pos ([] : List Stock)
              (by simp only [beq_iff_eq]; exact h3.symm)]
            rw [List.find?_cons_of_pos rest
              (by simp only [beq_iff_eq]; exact h3.symm)]
            have hcnt : decide (2 ≤ (tickersOf (s :: rest)).count t)
                = decide (t ∈ tickersOf rest) := by
              apply decide_eq_decide.mpr
              rw [tickersOf_cons, ← h3, List.count_cons_self]
              constructor
              · intro h
                exact List.count_pos_iff.mp (by omega)
              · intro h
                have := List.count_pos_iff.mpr h
                omega
            rw [hcnt]
            rfl
          · have hne : t ∉ s.ticker :: seen := by
              simp only [List.mem_cons, not_or]
              exact ⟨h3, h2⟩
            rw [if_neg hne, if_neg h2]
            rw [List.find?_cons_of_neg _
              (by simp only [beq_iff_eq]; exact fun h => h3 h.symm)]
            have hcnt : (tickersOf (s :: rest)).count t = (tickersOf rest).count t := by
              rw [tickersOf_cons, List.count_cons_of_ne h3]
            rw [hcnt]
      · by_cases hB : s.ticker ∈ seen
        · rw [dedupGo, if_neg hA, if_pos hB]
          rw [ih seen (setMulti s.ticker unique)
            (by intro u; rw [hinv u, tickersOf_setMulti]) hemp]
          by_cases h2 : t ∈ seen
          · rw [if_pos h2, if_pos h2]
            by_cases h3 : t = s.ticker
            · rw [← h3, find?_setMulti_self, Option.map_map]
              have hfun1 : ((fun (x : Stock) =>
                    { x with multi := x.multi || decide (t ∈ tickersOf rest) }) ∘
                  (fun (x : Stock) => { x with multi := true })) =
                  fun (x : Stock) => { x with multi := true } := by
                funext x
                simp [Function.comp]
              have hfun2 : (fun (x : Stock) =>
                    { x with multi := x.multi || decide (t ∈ tickersOf (s :: rest)) }) =
                  fun (x : Stock) => { x with multi := true } := by
                funext x
                have hm : t ∈ tickersOf (s :: rest) := by
                  rw [tickersOf_cons, h3]
                  exact List.mem_cons_self _ _
                simp [hm]
              rw [hfun1, hfun2]
            · rw [find?_setMulti_ne _ _ (fun h => h3 h.symm)]
              have hdec : decide (t ∈ tickersOf (s :: rest)) = decide (t ∈ tickersOf rest) :=
                decide_eq_decide.mpr (by simp [tickersOf_cons, h3])
              rw [hdec]
          · have h3 : t ≠ s.ticker := fun h => h2 (h ▸ hB)
            rw [if_neg h2, if_neg h2]
            rw [List.find?_cons_of_neg _
              (by simp only [beq_iff_eq]; exact fun h => h3 h.symm)]
            have hcnt : (tickersOf (s :: rest)).count t = (tickersOf rest).count t := by
              rw [tickersOf_cons, List.count_cons_of_ne h3]
            rw [hcnt]
        · have hse : s.ticker = "" := by
            rcases not_and_or.mp hA with h | h
            · exact not_not.mp h
            · exact absurd (not_not.mp h) hB
          have h3 : t ≠ s.ticker := by rw [hse]; exact ht
          rw [dedupGo, if_neg hA, if_neg hB]
          rw [ih seen unique hinv hemp]
          by_cases h2 : t ∈ seen
          · rw [if_pos h2, if_pos h2]
            have hdec : decide (t ∈ tickersOf (s :: rest)) = decide (t ∈ tickersOf rest) :=
              decide_eq_decide.mpr (by simp [tickersOf_cons, h3])
            rw [hdec]
          · rw [if_neg h2, if_neg h2]
            rw [List.find?_cons_of_neg _
              (by simp only [beq_iff_eq]; exact fun h => h3 h.symm)]
            have hcnt : (tickersOf (s :: rest)).count t = (tickersOf rest).count t := by
              rw [tickersOf_cons, List.count_cons_of_ne h3]
            rw [hcnt]

/-- The dedup loop from its initial state: for a nonempty ticker, the
retained entry is the first occurrence, with `_multi_scout` forced
exactly when the ticker occurs at least twice. -/
theorem dedup_find (all : List Stock) (t : String) (ht : t ≠ "") :
    (dedupStocks all).find? (fun s => s.ticker == t) =
      (all.find? (fun s => s.ticker == t)).map
        (fun s => { s with multi := s.multi || decide (2 ≤ (tickersOf all).count t) }) := by
  have h := dedupGo_find t ht all [] []
    (by intro u; simp [tickersOf_nil]) (by simp)
  simpa [dedupStocks] using h

theorem dedupGo_no_empty_ticker (rest : List Stock) :
    ∀ (seen : List String) (unique : List Stock),
      "" ∉ tickersOf unique →
      "" ∉ tickersOf (dedupGo seen unique rest) := by
  induction rest with
  | nil => intro seen unique h; rw [dedupGo]; exact h
  | cons s rest ih =>
      intro seen unique h
      by_cases hA : s.ticker ≠ "" ∧ s.ticker ∉ seen
      · rw [dedupGo, if_pos hA]
        apply ih
        intro hm
        rw [tickersOf_append] at hm
        rcases List.mem_append.mp hm with hm | hm
        · exact h hm
        · rw [tickersOf_cons, tickersOf_nil, List.mem_singleton] at hm
          exact hA.1 hm.symm
      · by_cases hB : s.ticker ∈ seen
        · rw [dedupGo, if_neg hA, if_pos hB]
          apply ih
          rw [tickersOf_setMulti]
          exact h
        · rw [dedupGo, if_neg hA, if_neg hB]
          exact ih seen unique h

theorem dedupGo_nodup (rest : List Stock) :
    ∀ (seen : List String) (unique : List Stock),
      (∀ u : String, u ∈ seen ↔ u ∈ tickersOf unique) →
      (tickersOf unique).Nodup →
      (tickersOf (dedupGo seen unique rest)).Nodup := by
  induction rest with
  | nil => intro seen unique _ h; rw [dedupGo]; exact h
  | cons s rest ih =>
      intro seen unique hinv h
      by_cases hA : s.ticker ≠ "" ∧ s.ticker ∉ seen
      · rw [dedupGo, if_pos hA]
        apply ih
        · intro u
          simp only [List.mem_cons, tickersOf_append, List.mem_append, hinv u,
            tickersOf_cons, tickersOf_nil, List.mem_singleton]
          tauto
        · rw [tickersOf_append, tickersOf_cons, tickersOf_nil]
          refine List.Nodup.append h (List.nodup_singleton _) ?_
          intro a ha hb
          rw [List.mem_singleton] at hb
          exact hA.2 ((hinv s.ticker).mpr (hb ▸ ha))
      · by_cases hB : s.ticker ∈ seen
        · rw [dedupGo, if_neg hA, if_pos hB]
          apply ih
          · intro u
            rw [hinv u, tickersOf_setMulti]
          · rw [tickersOf_setMulti]
            exact h
        · rw [dedupGo, if_neg hA, if_neg hB]
          exact ih seen unique hinv h

theorem mem_tickers_iff_find (t : String) (l : List Stock) :
    t ∈ tickersOf l ↔ (l.find? (fun s => s.ticker == t)).isSome := by
  rw [List.find?_isSome]
  constructor
  · intro h
    obtain ⟨y, hy, hyt⟩ := List.mem_map.mp h
    exact ⟨y, hy, beq_iff_eq.mpr hyt⟩
  · rintro ⟨x, hx, hpx⟩
    exact List.mem_map.mpr ⟨x, hx, beq_iff_eq.mp hpx⟩

theorem tickersOf_aggregate (scouts : List (String × List Stock)) :
    tickersOf (aggregateScouts scouts) =
      (scouts.map (fun p => tickersOf p.2)).flatten := by
  induction scouts with
  | nil => rfl
  | cons p rest ih =>
      show tickersOf (p.2.map (fun s => { s with source := p.1 })
          ++ aggregateScouts rest) = _
      rw [tickersOf_append, ih, List.map_cons, List.flatten_cons]
      congr 1
      unfold tickersOf
      rw [List.map_map]
      rfl

theorem countP_le_sum_count (t : String) (L : List (List String)) :
    L.countP (fun l => decide (t ∈ l)) ≤ (L.map (fun l => l.count t)).sum := by
  induction L with
  | nil => simp
  | cons l L ih =>
      rw [List.countP_cons, List.map_cons, List.sum_cons]
      by_cases h : t ∈ l
      · have hc : 0 < l.count t := List.count_pos_iff.mpr h
        rw [if_pos (decide_eq_true h)]
        omega
      · rw [if_neg (by simp [h])]
        omega

/-- Dedup keeps exactly the nonempty tickers of the input. -/
theorem mem_tickers_dedup (all : List Stock) (t : String) (ht : t ≠ "") :
    t ∈ tickersOf (dedupStocks all) ↔ t ∈ tickersOf all := by
  rw [mem_tickers_iff_find, dedup_find _ _ ht, Option.isSome_map',
    ← mem_tickers_iff_find]

/-! ## Claim theorems: ScoutPipeline dedup (C1, C10) -/

/-- Claim C1: in every discovery run, the deduplicated stock list carries
each (nonempty) ticker exactly once; its ticker set is the union of the
ticker sets of the successful scouts; dedup retains the first occurrence
of each ticker; and every ticker found by two or more scouts has
`_multi_scout = true` on the retained entry.  (A stock whose `ticker`
field is missing or empty carries no ticker — see C10.) -/
theorem claim_C1 (outcomes : List (String × Except String (List Stock))) :
    (tickersOf (dedupStocks (aggregateScouts (successfulScouts outcomes)))).Nodup ∧
    (∀ t : String,
      t ∈ tickersOf (dedupStocks (aggregateScouts (successfulScouts outcomes))) ↔
        (t ≠ "" ∧ ∃ p ∈ successfulScouts outcomes, t ∈ tickersOf p.2)) ∧
    (∀ (t : String) (s₀ : Stock), t ≠ "" →
      (aggregateScouts (successfulScouts outcomes)).find? (fun s => s.ticker == t)
          = some s₀ →
      (dedupStocks (aggregateScouts (successfulScouts outcomes))).find?
          (fun s => s.ticker == t)
        = some { s₀ with multi := (s₀.multi ||
            decide (2 ≤ (tickersOf (aggregateScouts (successfulScouts outcomes))).count t)) }) ∧
    (∀ t : String, t ≠ "" →
      2 ≤ (successfulScouts outcomes).countP (fun p => decide (t ∈ tickersOf p.2)) →
      ∃ s, s ∈ dedupStocks (aggregateScouts (successfulScouts outcomes)) ∧
        s.ticker = t ∧ s.multi = true) := by
  refine ⟨?_, ?_, ?_, ?_⟩
  · exact dedupGo_nodup _ [] []
      (by intro u; simp [tickersOf_nil]) List.nodup_nil
  · intro t
    by_cases ht : t = ""
    · subst ht
      constructor
      · intro hm
        exact absurd hm (dedupGo_no_empty_ticker _ [] [] (by simp [tickersOf_nil]))
      · rintro ⟨h, _⟩
        exact absurd rfl h
    · rw [mem_tickers_dedup _ _ ht, tickersOf_aggregate, List.mem_flatten]
      constructor
      · rintro ⟨l, hl, hm⟩
        obtain ⟨p, hp, hpl⟩ := List.mem_map.mp hl
        exact ⟨ht, p, hp, hpl ▸ hm⟩
      · rintro ⟨-, p, hp, hm⟩
        exact ⟨tickersOf p.2, List.mem_map.mpr ⟨p, hp, rfl⟩, hm⟩
  · intro t s₀ ht hfind
    rw [dedup_find _ _ ht, hfind]
    rfl
  · intro t ht hcount
    have hsum : 2 ≤ (tickersOf (aggregateScouts (successfulScouts outcomes))).count t := by
      rw [tickersOf_aggregate, List.count_flatten]
      calc 2 ≤ (successfulScouts outcomes).countP
            (fun p => decide (t ∈ tickersOf p.2)) := hcount
        _ = ((successfulScouts outcomes).map (fun p => tickersOf p.2)).countP
            (fun l => decide (t ∈ l)) := by
              rw [List.countP_map]
              rfl
        _ ≤ (((successfulScouts outcomes).map (fun p => tickersOf p.2)).map
            (fun l => l.count t)).sum := countP_le_sum_count _ _
        _ = _ := by rw [List.map_map]
    have hmem : t ∈ tickersOf (aggregateScouts (successfulScouts outcomes)) :=
      List.count_pos_iff.mp (by omega)
    obtain ⟨s₀, hs₀⟩ := Option.isSome_iff_exists.mp
      ((mem_tickers_iff_find t _).mp hmem)
    refine ⟨{ s₀ with multi := (s₀.multi ||
        decide (2 ≤ (tickersOf (aggregateScouts (successfulScouts outcomes))).count t)) },
      ?_, ?_, ?_⟩
    · apply List.mem_of_find?_eq_some
      rw [dedup_find _ _ ht, hs₀]
      rfl
    · have hpx := List.find?_some hs₀
      have ht0 : s₀.ticker = t := beq_iff_eq.mp hpx
      exact ht0
    · simp [hsum]

/-- Witness for C1: two scouts both return NVDA; the dedup set has Nodup
tickers, NVDA is retained once with the multi-scout flag, and the first
occurrence (payload 0) wins. -/
theorem claim_C1_witness :
    (tickersOf (dedupStocks (aggregateScouts (successfulScouts
        [("Emerging Leaders", Except.ok
            [⟨"NVDA", "", false, 0⟩, ⟨"AMD", "", false, 1⟩]),
         ("Smart Money", Except.ok
            [⟨"NVDA", "", false, 2⟩, ⟨"MSFT", "", false, 3⟩]),
         ("Disruption", Except.error "scout failed")])))).Nodup ∧
    (∃ s, s ∈ dedupStocks (aggregateScouts (successfulScouts
        [("Emerging Leaders", Except.ok
            [⟨"NVDA", "", false, 0⟩, ⟨"AMD", "", false, 1⟩]),
         ("Smart Money", Except.ok
            [⟨"NVDA", "", false, 2⟩, ⟨"MSFT", "", false, 3⟩]),
         ("Disruption", Except.error "scout failed")])) ∧
      s.ticker = "NVDA" ∧ s.multi = true) := by
  have h := claim_C1
    [("Emerging Leaders", Except.ok
        [⟨"NVDA", "", false, 0⟩, ⟨"AMD", "", false, 1⟩]),
     ("Smart Money", Except.ok
        [⟨"NVDA", "", false, 2⟩, ⟨"MSFT", "", false, 3⟩]),
     ("Disruption", Except.error "scout failed")]
  exact ⟨h.1, h.2.2.2 "NVDA" (by decide) (by decide)⟩

/-- Claim C10: a scout-returned stock with a missing or empty ticker is
silently excluded from the deduplicated unique list (never retained, so
never flagged), while still counting toward `total_discovered`; hence
`unique_stocks` counts exactly the distinct nonempty tickers. -/
theorem claim_C10 (outcomes : List (String × Except String (List Stock))) :
    (∀ e ∈ dedupStocks (aggregateScouts (successfulScouts outcomes)), e.ticker ≠ "") ∧
    (∀ s ∈ aggregateScouts (successfulScouts outcomes), s.ticker = "" →
      s ∉ dedupStocks (aggregateScouts (successfulScouts outcomes))) ∧
    (discoverStats outcomes).totalDiscovered
      = (aggregateScouts (successfulScouts outcomes)).length ∧
    (discoverStats outcomes).uniqueStocks
      = ((tickersOf (aggregateScouts (successfulScouts outcomes))).filter
          (fun t => t ≠ "")).toFinset.card := by
  have hno : "" ∉ tickersOf (dedupStocks (aggregateScouts (successfulScouts outcomes))) :=
    dedupGo_no_empty_ticker _ [] [] (by simp [tickersOf_nil])
  have hne : ∀ e ∈ dedupStocks (aggregateScouts (successfulScouts outcomes)),
      e.ticker ≠ "" := by
    intro e he hticker
    exact hno (List.mem_map.mpr ⟨e, he, hticker⟩)
  refine ⟨hne, ?_, rfl, ?_⟩
  · intro s _ hticker hmem
    exact hne s hmem hticker
  · have hnd : (tickersOf (dedupStocks (aggregateScouts (successfulScouts outcomes)))).Nodup :=
      dedupGo_nodup _ [] [] (by intro u; simp [tickersOf_nil]) List.nodup_nil
    have hlen : (discoverStats outcomes).uniqueStocks
        = (tickersOf (dedupStocks (aggregateScouts (successfulScouts outcomes)))).length := by
      simp [discoverStats, tickersOf]
    rw [hlen, ← List.toFinset_card_of_nodup hnd]
    congr 1
    apply Finset.ext
    intro t
    simp only [List.mem_toFinset, List.mem_filter, decide_eq_true_eq]
    constructor
    · intro hm
      have ht : t ≠ "" := fun h => hno (h ▸ hm)
      exact ⟨(mem_tickers_dedup _ t ht).mp hm, ht⟩
    · rintro ⟨hm, ht⟩
      exact (mem_tickers_dedup _ t ht).mpr hm

/-- Witness for C10: one scout returns a stock with an empty ticker and
one with "NVDA"; the empty-ticker stock is not retained, still counts in
`total_discovered` = 2, and `unique_stocks` = 1. -/
theorem claim_C10_witness :
    (⟨"", "Thematic (AI)", false, 7⟩ : Stock) ∉ dedupStocks (aggregateScouts
        (successfulScouts [("Thematic (AI)", Except.ok
          [⟨"", "", false, 7⟩, ⟨"NVDA", "", false, 8⟩])])) ∧
    (discoverStats [("Thematic (AI)", Except.ok
        [⟨"", "", false, 7⟩, ⟨"NVDA", "", false, 8⟩])]).totalDiscovered = 2 ∧
    (discoverStats [("Thematic (AI)", Except.ok
        [⟨"", "", false, 7⟩, ⟨"NVDA", "", false, 8⟩])]).uniqueStocks = 1 := by
  have h := claim_C10 [("Thematic (AI)", Except.ok
    [⟨"", "", false, 7⟩, ⟨"NVDA", "", false, 8⟩])]
  refine ⟨h.2.1 ⟨"", "Thematic (AI)", false, 7⟩ (by decide) rfl, ?_, ?_⟩
  · rw [h.2.2.1]
    rfl
  · rw [h.2.2.2]
    decide

/-! ## Slug lemmas (C7) -/

theorem isSlugChar_ne_hyphen (c : Char) (h : isSlugChar c = true) : c ≠ '-' := by
  intro heq
  rw [heq] at h
  exact absurd h (by decide)

theorem collapseRuns_chars (l : List Char) :
    ∀ (flag : Bool) (c : Char), c ∈ collapseRuns flag l →
      isSlugChar c = true ∨ c = '-' := by
  induction l with
  | nil => intro flag c h; exact absurd h (List.not_mem_nil c)
  | cons d rest ih =>
      intro flag c h
      by_cases hd : isSlugChar d = true
      · rw [collapseRuns, if_pos hd] at h
        rcases List.mem_cons.mp h with h | h
        · exact Or.inl (h ▸ hd)
        · exact ih false c h
      · rw [collapseRuns, if_neg hd] at h
        cases flag with
        | true => exact ih true c (by simpa using h)
        | false =>
            rcases List.mem_cons.mp (by simpa using h) with h | h
            · exact Or.inr h
            · exact ih true c h

theorem collapseRuns_inRun_head (l : List Char) :
    ∀ c : Char, (collapseRuns true l).head? = some c → isSlugChar c = true := by
  induction l with
  | nil => intro c h; exact absurd h (by simp [collapseRuns])
  | cons d rest ih =>
      intro c h
      by_cases hd : isSlugChar d = true
      · rw [collapseRuns, if_pos hd] at h
        rw [List.head?_cons, Option.some.injEq] at h
        exact h ▸ hd
      · rw [collapseRuns, if_neg hd, if_pos rfl] at h
        exact ih c h

theorem noAdjacentHyphens_cons (c : Char) (l : List Char) :
    noAdjacentHyphens (c :: l) = true ↔
      ((∀ b, l.head? = some b → ¬(c = '-' ∧ b = '-')) ∧
        noAdjacentHyphens l = true) := by
  cases l with
  | nil => simp [noAdjacentHyphens]
  | cons b rest =>
      rw [noAdjacentHyphens]
      rw [Bool.and_eq_true, Bool.not_eq_true']
      rw [Bool.and_eq_false_iff]
      constructor
      · rintro ⟨h1, h2⟩
        refine ⟨?_, h2⟩
        intro x hx ⟨hc, hb⟩
        rw [List.head?_cons, Option.some.injEq] at hx
        rcases h1 with h1 | h1
        · exact absurd (decide_eq_true hc) (by rw [h1]; decide)
        · exact absurd (decide_eq_true (hx ▸ hb)) (by rw [h1]; decide)
      · rintro ⟨h1, h2⟩
        refine ⟨?_, h2⟩
        by_cases hc : c = '-'
        · right
          by_cases hb : b = '-'
          · exact absurd ⟨hc, hb⟩ (h1 b rfl)
          · simpa using hb
        · left
          simpa using hc

theorem noAdjacentHyphens_collapseRuns (l : List Char) :
    ∀ flag : Bool, noAdjacentHyphens (collapseRuns flag l) = true := by
  induction l with
  | nil => intro flag; rfl
  | cons d rest ih =>
      intro flag
      by_cases hd : isSlugChar d = true
      · rw [collapseRuns, if_pos hd]
        rw [noAdjacentHyphens_cons]
        refine ⟨?_, ih false⟩
        intro b _ hdb
        exact isSlugChar_ne_hyphen d hd hdb.1
      · rw [collapseRuns, if_neg hd]
        cases flag with
        | true => simpa using ih true
        | false =>
            rw [if_neg (by simp)]
            rw [noAdjacentHyphens_cons]
            refine ⟨?_, ih true⟩
            intro b hb hdb
            exact isSlugChar_ne_hyphen b (collapseRuns_inRun_head rest b hb) hdb.2

theorem stripTrailingHyphens_subset (l : List Char) :
    ∀ c, c ∈ stripTrailingHyphens l → c ∈ l := by
  induction l with
  | nil => intro c h; exact absurd h (List.not_mem_nil c)
  | cons d rest ih =>
      intro c h
      rw [stripTrailingHyphens] at h
      cases hrec : stripTrailingHyphens rest with
      | nil =>
          rw [hrec] at h
          by_cases hd : d = '-'
          · rw [if_pos hd] at h
            exact absurd h (List.not_mem_nil c)
          · rw [if_neg hd] at h
            rw [List.mem_singleton] at h
            exact h ▸ List.mem_cons_self d rest
      | cons x xs =>
          rw [hrec] at h
          rcases List.mem_cons.mp h with h | h
          · exact h ▸ List.mem_cons_self d rest
          · exact List.mem_cons_of_mem d (ih c (hrec ▸ h))

theorem stripTrailingHyphens_head (l : List Char) :
    stripTrailingHyphens l = [] ∨
      (stripTrailingHyphens l).head? = l.head? := by
  cases l with
  | nil => exact Or.inl rfl
  | cons d rest =>
      rw [stripTrailingHyphens]
      cases hrec : stripTrailingHyphens rest with
      | nil =>
          by_cases hd : d = '-'
          · rw [if_pos hd]
            exact Or.inl rfl
          · rw [if_neg hd]
            exact Or.inr rfl
      | cons x xs => exact Or.inr rfl

theorem stripTrailingHyphens_last (l : List Char) :
    ∀ c, lastChar (stripTrailingHyphens l) = some c → c ≠ '-' := by
  induction l with
  | nil => intro c h; exact absurd h (by simp [stripTrailingHyphens, lastChar])
  | cons d rest ih =>
      intro c h
      rw [stripTrailingHyphens] at h
      cases hrec : stripTrailingHyphens rest with
      | nil =>
          rw [hrec] at h
          by_cases hd : d = '-'
          · rw [if_pos hd] at h
            exact absurd h (by simp [lastChar])
          · rw [if_neg hd] at h
            rw [lastChar, Option.some.injEq] at h
            exact h ▸ hd
      | cons x xs =>
          rw [hrec] at h
          rw [lastChar] at h
          exact ih c (hrec ▸ h)

theorem noAdjacentHyphens_stripTrailing (l : List Char)
    (h : noAdjacentHyphens l = true) :
    noAdjacentHyphens (stripTrailingHyphens l) = true := by
  induction l with
  | nil => exact h
  | cons d rest ih =>
      obtain ⟨hpair, hrest⟩ := (noAdjacentHyphens_cons d rest).mp h
      rw [stripTrailingHyphens]
      cases hrec : stripTrailingHyphens rest with
      | nil =>
          by_cases hd : d = '-'
          · rw [if_pos hd]; rfl
          · rw [if_neg hd]; rfl
      | cons x xs =>
          rw [noAdjacentHyphens_cons]
          refine ⟨?_, hrec ▸ ih hrest⟩
          intro b hb hdb
          rw [List.head?_cons, Option.some.injEq] at hb
          rcases stripTrailingHyphens_head rest with hnil | hhead
          · rw [hnil] at hrec
            exact List.noConfusion hrec
          · rw [hrec] at hhead
            rw [List.head?_cons] at hhead
            exact hpair b (by rw [← hhead, hb]) hdb

theorem stripTrailingHyphens_eq_nil (l : List Char)
    (h : stripTrailingHyphens l = []) : ∀ c ∈ l, c = '-' := by
  induction l with
  | nil => intro c hc; exact absurd hc (List.not_mem_nil c)
  | cons d rest ih =>
      intro c hc
      rw [stripTrailingHyphens] at h
      cases hrec : stripTrailingHyphens rest with
      | nil =>
          rw [hrec] at h
          by_cases hd : d = '-'
          · rcases List.mem_cons.mp hc with hc | hc
            · exact hc ▸ hd
            · exact ih (hrec) c hc
          · rw [if_neg hd] at h
            exact List.noConfusion h
      | cons x xs =>
          rw [hrec] at h
          exact List.noConfusion h

theorem filter_stripTrailingHyphens (l : List Char) :
    (stripTrailingHyphens l).filter (fun c => c ≠ '-')
      = l.filter (fun c => c ≠ '-') := by
  induction l with
  | nil => rfl
  | cons d rest ih =>
      rw [stripTrailingHyphens]
      cases hrec : stripTrailingHyphens rest with
      | nil =>
          have hall := stripTrailingHyphens_eq_nil rest hrec
          have hrfilter : rest.filter (fun c => c ≠ '-') = [] :=
            List.filter_eq_nil_iff.mpr (fun a ha => by simp [hall a ha])
          by_cases hd : d = '-'
          · rw [if_pos hd]
            rw [List.filter_cons, if_neg (by simp [hd]), hrfilter]
            rfl
          · rw [if_neg hd]
            rw [List.filter_cons, List.filter_cons,
              if_pos (by simpa using hd), if_pos (by simpa using hd), hrfilter]
            rfl
      | cons x xs =>
          have ih2 := ih
          rw [hrec] at ih2
          rw [List.filter_cons, ih2, List.filter_cons]

theorem head_dropWhile_hyphen (l : List Char) :
    ∀ c, ((l.dropWhile (fun c => c = '-')).head? = some c) → c ≠ '-' := by
  induction l with
  | nil => intro c h; exact absurd h (by simp)
  | cons d rest ih =>
      intro c h
      by_cases hd : d = '-'
      · rw [List.dropWhile_cons_of_pos (by simpa using hd)] at h
        exact ih c h
      · rw [List.dropWhile_cons_of_neg (by simpa using hd)] at h
        rw [List.head?_cons, Option.some.injEq] at h
        exact h ▸ hd

theorem noAdjacentHyphens_dropWhile (l : List Char)
    (h : noAdjacentHyphens l = true) :
    noAdjacentHyphens (l.dropWhile (fun c => c = '-')) = true := by
  induction l with
  | nil => exact h
  | cons d rest ih =>
      obtain ⟨_, hrest⟩ := (noAdjacentHyphens_cons d rest).mp h
      by_cases hd : d = '-'
      · rw [List.dropWhile_cons_of_pos (by simpa using hd)]
        exact ih hrest
      · rw [List.dropWhile_cons_of_neg (by simpa using hd)]
        exact h

theorem filter_dropWhile_hyphen (l : List Char) :
    (l.dropWhile (fun c => c = '-')).filter (fun c => c ≠ '-')
      = l.filter (fun c => c ≠ '-') := by
  induction l with
  | nil => rfl
  | cons d rest ih =>
      by_cases hd : d = '-'
      · rw [List.dropWhile_cons_of_pos (by simpa using hd), ih,
          List.filter_cons, if_neg (by simp [hd])]
      · rw [List.dropWhile_cons_of_neg (by simpa using hd)]

theorem filter_collapseRuns (l : List Char) :
    ∀ flag : Bool, (collapseRuns flag l).filter (fun c => c ≠ '-')
      = l.filter (fun c => isSlugChar c) := by
  induction l with
  | nil => intro flag; rfl
  | cons d rest ih =>
      intro flag
      by_cases hd : isSlugChar d = true
      · rw [collapseRuns, if_pos hd]
        rw [List.filter_cons, List.filter_cons,
          if_pos (by simpa using isSlugChar_ne_hyphen d hd), if_pos hd, ih false]
      · rw [collapseRuns, if_neg hd]
        cases flag with
        | true =>
            rw [if_pos rfl, ih true, List.filter_cons,
              if_neg (by simpa using hd)]
        | false =>
            rw [if_neg (by simp)]
            rw [List.filter_cons, if_neg (by simp), ih true,
              List.filter_cons, if_neg (by simpa using hd)]

/-- The shape of every slug: only `[a-z0-9]` and single hyphens, no
hyphen at either end, and deleting the hyphens leaves exactly the
alphanumeric characters of the lowercased name. -/
theorem slug_spec (name : String) :
    (∀ c ∈ (slugify name).data, isSlugChar c = true ∨ c = '-') ∧
    (∀ c, (slugify name).data.head? = some c → c ≠ '-') ∧
    (∀ c, lastChar (slugify name).data = some c → c ≠ '-') ∧
    noAdjacentHyphens (slugify name).data = true ∧
    (slugify name).data.filter (fun c => c ≠ '-')
      = (name.data.map Char.toLower).filter (fun c => isSlugChar c) := by
  refine ⟨?_, ?_, ?_, ?_, ?_⟩
  · intro c hc
    have h1 := stripTrailingHyphens_subset _ c hc
    have h2 := List.Sublist.mem h1 (List.dropWhile_sublist _)
    exact collapseRuns_chars _ false c h2
  · intro c hc
    have hc2 : (stripTrailingHyphens ((collapseRuns false
        (name.data.map Char.toLower)).dropWhile (fun c => c = '-'))).head?
        = some c := hc
    rcases stripTrailingHyphens_head
        ((collapseRuns false (name.data.map Char.toLower)).dropWhile
          (fun c => c = '-')) with hnil | hhead
    · rw [hnil] at hc2
      exact absurd hc2 (by simp)
    · rw [hhead] at hc2
      exact head_dropWhile_hyphen _ c hc2
  · intro c hc
    have hc2 : lastChar (stripTrailingHyphens ((collapseRuns false
        (name.data.map Char.toLower)).dropWhile (fun c => c = '-')))
        = some c := hc
    exact stripTrailingHyphens_last _ c hc2
  · exact noAdjacentHyphens_stripTrailing _
      (noAdjacentHyphens_dropWhile _ (noAdjacentHyphens_collapseRuns _ false))
  · rw [show (slugify name).data = stripTrailingHyphens
        ((collapseRuns false (name.data.map Char.toLower)).dropWhile
          (fun c => c = '-')) from rfl]
    rw [filter_stripTrailingHyphens, filter_dropWhile_hyphen,
      filter_collapseRuns _ false]

/-! ## Claim theorems: create_fund naming (C7) -/

/-- Claim C7: with no explicit fund name, the derived name is the
title-cased concatenation of the first two themes followed by " Fund"
("New Growth Fund" when `themes` is empty); the slug is the name
lowercased with each run of non-alphanumerics collapsed to a single
hyphen and no hyphen at either end; in particular themes =
["fintech", "ai"] gives name "FintechAi Fund" and slug "fintechai-fund". -/
theorem claim_C7 (themes : List String) (hne : themes ≠ []) :
    deriveFundName none themes
      = String.join ((themes.take 2).map pytitle) ++ " Fund" ∧
    deriveFundName none [] = "New Growth Fund" ∧
    (∀ c ∈ (slugify (deriveFundName none themes)).data,
      isSlugChar c = true ∨ c = '-') ∧
    (∀ c, (slugify (deriveFundName none themes)).data.head? = some c → c ≠ '-') ∧
    (∀ c, lastChar (slugify (deriveFundName none themes)).data = some c → c ≠ '-') ∧
    noAdjacentHyphens (slugify (deriveFundName none themes)).data = true ∧
    (slugify (deriveFundName none themes)).data.filter (fun c => c ≠ '-')
      = ((deriveFundName none themes).data.map Char.toLower).filter
          (fun c => isSlugChar c) ∧
    deriveFundName none ["fintech", "ai"] = "FintechAi Fund" ∧
    slugify "FintechAi Fund" = "fintechai-fund" := by
  have hspec := slug_spec (deriveFundName none themes)
  refine ⟨?_, rfl, hspec.1, hspec.2.1, hspec.2.2.1, hspec.2.2.2.1,
    hspec.2.2.2.2, by decide, by decide⟩
  rw [deriveFundName, if_neg (by simpa [List.isEmpty_iff] using hne)]

/-- Witness for C7 at themes = ["fintech", "ai"]. -/
theorem claim_C7_witness :
    deriveFundName none ["fintech", "ai"] = "FintechAi Fund" ∧
    slugify "FintechAi Fund" = "fintechai-fund" := by
  have h := claim_C7 ["fintech", "ai"] (by decide)
  exact ⟨h.2.2.2.2.2.2.2.1, h.2.2.2.2.2.2.2.2⟩

end Shrestha
